import Mathlib

/-!
Verification of the calendar/events CRUD service (months, events, event
details, token-based authentication).

The Python sources are shallowly embedded: the relational store is a record
of lists of rows, each CRUD function of `api/crud.py` / `app.py` becomes a
pure function from a store to a store (plus its returned value), and the
token subsystem is embedded with tokens as an inductive of either a
malformed string or a signed payload.
-/

/-- A row of the `users` table (`api/models.py`, class `User`). -/
structure User where
  id : Nat
  username : String
  hashed_password : String
deriving DecidableEq, Repr

/-- A row of the `months` table (`api/models.py`, class `Month`). -/
structure Month where
  id : Nat
  month_bn : String
  month_en : String
deriving DecidableEq, Repr

/-- A row of the `events` table (`api/models.py`, class `Event`). -/
structure Event where
  id : Nat
  month_id : Nat
  day : String
deriving DecidableEq, Repr

/-- A row of the `event_details` table (`api/models.py`, class `EventDetail`). -/
structure EventDetail where
  id : Nat
  event_id : Nat
  detail : String
deriving DecidableEq, Repr

/-- The relational store: one list of rows per table, plus the
autoincrement counters for the integer primary keys. -/
structure DB where
  users : List User := []
  months : List Month := []
  events : List Event := []
  details : List EventDetail := []
  nextMonthId : Nat := 1
  nextEventId : Nat := 1
  nextDetailId : Nat := 1
deriving DecidableEq, Repr

/-- Request body of the nested create (`api/schemas.py`, `EventCreate`):
a day string together with the detail texts of the event. -/
structure EventCreate where
  day : String
  details : List String
deriving DecidableEq, Repr

/-- Request body of the nested create (`api/schemas.py`, `MonthCreate`). -/
structure MonthCreate where
  month_bn : String
  month_en : String
  events : List EventCreate := []
deriving DecidableEq, Repr

/-- The Western-Arabic to Bangla digit substitution table of
`to_bangla_digits` (`api/crud.py` lines 92-97): the ten digit characters
map to the Bangla glyphs, every other character is returned unchanged
(the dictionary `get` default). -/
def engToBn (c : Char) : Char :=
  match c with
  | '0' => '০'
  | '1' => '১'
  | '2' => '২'
  | '3' => '৩'
  | '4' => '৪'
  | '5' => '৫'
  | '6' => '৬'
  | '7' => '৭'
  | '8' => '৮'
  | '9' => '৯'
  | _ => c

/-- `to_bangla_digits` (`api/crud.py` lines 92-97): character-wise
translation of a string through the substitution table. -/
def to_bangla_digits (number_str : String) : String :=
  String.mk (number_str.data.map engToBn)

/-- Whether a string contains at least one Western-Arabic digit `0`-`9`. -/
def hasWesternDigit (s : String) : Bool :=
  s.data.any (fun c => '0' ≤ c && c ≤ '9')

/-- The row filter of `get_events_by_date`: events of the month whose
stored day string equals the given one (`api/crud.py` line 101). -/
def eventMatchesDay (month_id : Nat) (day : String) (e : Event) : Bool :=
  e.month_id == month_id && e.day == day

/-- `get_events_by_date` (`api/crud.py` lines 99-110): exact match first;
if no row matched, translate the day to Bangla digits and retry unless the
translation changed nothing, in which case return the empty list. -/
def get_events_by_date (db : DB) (month_id : Nat) (day : String) : List Event :=
  let events := db.events.filter (eventMatchesDay month_id day)
  if events.isEmpty then
    let day_bn := to_bangla_digits day
    if day_bn != day then db.events.filter (eventMatchesDay month_id day_bn)
    else []
  else events

/-- Helper for the SQL `%` wildcard: whether `f` accepts some suffix of
the string, scanning suffixes from the longest down. -/
def anySuf (f : List Char → Bool) : List Char → Bool
  | [] => f []
  | x :: s' => f (x :: s') || anySuf f s'

/-- SQL `LIKE` pattern matching over characters: `%` matches any
(possibly empty) sequence, `_` matches exactly one character, every other
pattern character matches itself. This embeds the semantics of the SQL
`LIKE` operator that `Query.filter(... .ilike(...))` compiles to. -/
def likeMatch : List Char → List Char → Bool
  | [], s => s.isEmpty
  | c :: ps, s =>
    if c = '%' then anySuf (likeMatch ps) s
    else
      match s with
      | [] => false
      | x :: s' => (if c = '_' then true else c == x) && likeMatch ps s'

/-- ASCII lowercasing of a string, the `lower()` both sides of an `ILIKE`
comparison are passed through. -/
def strLower (s : String) : String :=
  String.mk (s.data.map Char.toLower)

/-- `search_details` (`api/crud.py` lines 112-114): keep the detail rows —
across all events and months — whose text matches `ILIKE '%query%'`, i.e.
case-insensitive `LIKE` with the raw query embedded between two percent
signs and no escaping. -/
def search_details (db : DB) (query : String) : List EventDetail :=
  db.details.filter fun d =>
    likeMatch (strLower ("%" ++ query ++ "%")).data (strLower d.detail).data

/-- The `/api/search` route (`api/routers/public.py` lines 24-26): the
query parameter is declared with `min_length=3`, so the request layer
rejects shorter queries (`none`) before `search_details` runs. -/
def search_events_route (db : DB) (q : String) : Option (List EventDetail) :=
  if q.length < 3 then none else some (search_details db q)

/-- Insert a `Month` row and commit (`db.add`/`db.commit` of
`create_month`, `api/crud.py` lines 23-26). -/
def insertMonth (db : DB) (bn en : String) : Month × DB :=
  let m : Month := { id := db.nextMonthId, month_bn := bn, month_en := en }
  (m, { db with months := db.months ++ [m], nextMonthId := db.nextMonthId + 1 })

/-- Insert an `Event` row and commit (`api/crud.py` lines 29-32). -/
def insertEvent (db : DB) (mid : Nat) (day : String) : Event × DB :=
  let e : Event := { id := db.nextEventId, month_id := mid, day := day }
  (e, { db with events := db.events ++ [e], nextEventId := db.nextEventId + 1 })

/-- Insert an `EventDetail` row (`api/crud.py` lines 35-36). -/
def insertDetail (db : DB) (eid : Nat) (txt : String) : EventDetail × DB :=
  let d : EventDetail := { id := db.nextDetailId, event_id := eid, detail := txt }
  (d, { db with details := db.details ++ [d], nextDetailId := db.nextDetailId + 1 })

/-- `create_month` (`api/crud.py` lines 22-40), the run in which every
insert succeeds: insert the month, then for each event the event row
followed by its detail rows. -/
def create_month (db : DB) (mc : MonthCreate) : Month × DB :=
  let step := insertMonth db mc.month_bn mc.month_en
  let m := step.1
  let db2 := mc.events.foldl (fun acc ev =>
    let estep := insertEvent acc m.id ev.day
    ev.details.foldl (fun a t => (insertDetail a estep.1.id t).2) estep.2) step.2
  (m, db2)

/-- The committed store that `create_month` leaves behind when the detail
commit of the event at index `failIdx` raises. `create_month` commits
after the month insert, after each event insert, and after each event's
batch of detail inserts (`api/crud.py` lines 25, 31, 37), so when the
detail commit of event `failIdx` fails, everything committed before it —
the month, events `0..failIdx`, and the details of events before
`failIdx` — stays in the store, while only the pending detail rows of
event `failIdx` are discarded with the session. -/
def create_month_fail_go (db : DB) (mid : Nat) : List EventCreate → Nat → DB
  | [], _ => db
  | ev :: _, 0 => (insertEvent db mid ev.day).2
  | ev :: rest, n + 1 =>
    let estep := insertEvent db mid ev.day
    let db2 := ev.details.foldl (fun a t => (insertDetail a estep.1.id t).2) estep.2
    create_month_fail_go db2 mid rest n

/-- `create_month` under an injected failure: the detail commit of the
event at index `failIdx` raises after earlier statements were already
committed one by one. -/
def create_month_fail (db : DB) (mc : MonthCreate) (failIdx : Nat) : DB :=
  let step := insertMonth db mc.month_bn mc.month_en
  create_month_fail_go step.2 step.1.id mc.events failIdx

/-- `delete_month` (`api/crud.py` lines 42-47) together with the ORM
cascade `"all, delete-orphan"` on `Month.events` and `Event.details`
(`api/models.py` lines 19 and 29): deleting a month deletes its event
rows and the detail rows of those events; a missing month id changes
nothing. -/
def delete_month (db : DB) (month_id : Nat) : Option Month × DB :=
  match db.months.find? (fun m => m.id == month_id) with
  | none => (none, db)
  | some m =>
    let deadEvents := db.events.filter (fun e => e.month_id == month_id)
    (some m,
      { db with
        months := db.months.filter (fun mo => !(mo.id == month_id)),
        events := db.events.filter (fun e => !(e.month_id == month_id)),
        details := db.details.filter
          (fun d => !(deadEvents.any (fun e => e.id == d.event_id))) })

/-- `delete_event` (`api/crud.py` lines 71-76) with the cascade on
`Event.details`: deleting an event deletes its detail rows. -/
def delete_event (db : DB) (event_id : Nat) : Option Event × DB :=
  match db.events.find? (fun e => e.id == event_id) with
  | none => (none, db)
  | some e =>
    (some e,
      { db with
        events := db.events.filter (fun ev => !(ev.id == event_id)),
        details := db.details.filter (fun d => !(d.event_id == event_id)) })

/-- In-place overwrite of the two name fields of the first month row with
the given id, the mutation `db_month.month_bn = ...; db_month.month_en =
...` of `update_month` applied to the row `first()` returned. -/
def setMonthNames : List Month → Nat → String → String → List Month
  | [], _, _, _ => []
  | mo :: rest, mid, bn, en =>
    if mo.id == mid then { mo with month_bn := bn, month_en := en } :: rest
    else mo :: setMonthNames rest mid bn en

/-- `update_month` (`api/crud.py` lines 49-56): look the month up by id;
if absent return `none` leaving the store untouched, otherwise overwrite
its two name fields and return the updated row. -/
def update_month (db : DB) (month_id : Nat) (bn en : String) : Option Month × DB :=
  match db.months.find? (fun m => m.id == month_id) with
  | none => (none, db)
  | some m =>
    (some { m with month_bn := bn, month_en := en },
     { db with months := setMonthNames db.months month_id bn en })

/-- A JWT as the token subsystem sees it: either a string that fails
signature or structure checks, or a well-formed token signed with some
secret carrying an optional `sub` claim and an `exp` timestamp (seconds). -/
inductive TokenStr where
  | malformed
  | signed (secret : String) (sub : Option String) (exp : Int)
deriving DecidableEq, Repr

/-- The process-wide signing secret (`app.py` line 150, default value). -/
def SECRET_KEY : String :=
  "09d25e094faa6ca2556c818166b7a9563b93f7099f6f0f4caa6cf63b88e8d3e7"

/-- `ACCESS_TOKEN_EXPIRE_MINUTES` (`app.py` line 152). -/
def ACCESS_TOKEN_EXPIRE_MINUTES : Nat := 30

/-- Modelled from the spec: `Token Service.validate` (the `jwt.decode`
call of the external `jose` library, not part of this repository).
Per the spec it verifies the signature against the server secret and that
`now < expiry_timestamp`, and fails on a bad signature, malformed
structure, or expiry not in the future; on success it yields the claims. -/
def jwt_decode (serverSecret : String) (now : Int) (t : TokenStr) :
    Option (Option String × Int) :=
  match t with
  | .malformed => none
  | .signed s sub exp =>
    if s = serverSecret ∧ now < exp then some (sub, exp) else none

/-- `create_access_token` (`app.py` lines 163-171): the expiry is the
issue time plus the supplied delta, or plus 15 minutes when no delta is
supplied; the claims (here the `sub` subject) are signed with the server
secret. Times are in seconds. -/
def create_access_token (secret : String) (sub : String) (now : Int)
    (expires_delta : Option Int) : TokenStr :=
  .signed secret (some sub) (now + expires_delta.getD (15 * 60))

/-- The token issued by the `/token` endpoint (`app.py` lines 334-337):
`create_access_token` with an explicit `timedelta(minutes=ACCESS_TOKEN_EXPIRE_MINUTES)`. -/
def api_token (secret : String) (sub : String) (now : Int) : TokenStr :=
  create_access_token secret sub now (some ((ACCESS_TOKEN_EXPIRE_MINUTES : Int) * 60))

/-- The token issued by the dashboard login (`app.py` line 433):
`create_access_token` with no `expires_delta`. -/
def dashboard_token (secret : String) (sub : String) (now : Int) : TokenStr :=
  create_access_token secret sub now none

/-- The `Authorization` header as the bearer extraction sees it: absent,
present with a scheme other than `Bearer` (malformed), or a bearer token. -/
inductive AuthHeader where
  | missing
  | badScheme (raw : String)
  | bearer (t : TokenStr)
deriving Repr

/-- An HTTP error response: status code and the optional
`WWW-Authenticate` response header. -/
structure HttpError where
  status : Nat
  wwwAuthenticate : Option String
deriving DecidableEq, Repr

/-- The `credentials_exception` of `get_current_user` (`app.py` lines
174-178): status 401 with header `WWW-Authenticate: Bearer`. -/
def credentials_exception : HttpError :=
  { status := 401, wwwAuthenticate := some "Bearer" }

/-- Modelled from the spec: the `OAuth2PasswordBearer` dependency (FastAPI
framework code, not part of this repository). Per the spec it extracts
the token from a standard `Authorization: Bearer <token>` header and an
absent or malformed header surfaces as 401 + `WWW-Authenticate: Bearer`. -/
def oauth2_extract : AuthHeader → Except HttpError TokenStr
  | .missing => .error { status := 401, wwwAuthenticate := some "Bearer" }
  | .badScheme _ => .error { status := 401, wwwAuthenticate := some "Bearer" }
  | .bearer t => .ok t

/-- `get_current_user` (`app.py` lines 173-190), the dependency of every
`/admin` route: decode the bearer token, reject with
`credentials_exception` when decoding fails or the `sub` claim is missing
or the username matches no `User` row, otherwise return that row. -/
def get_current_user (secret : String) (db : DB) (now : Int) (hdr : AuthHeader) :
    Except HttpError User :=
  match oauth2_extract hdr with
  | .error e => .error e
  | .ok tok =>
    match jwt_decode secret now tok with
    | none => .error credentials_exception
    | some (sub, _) =>
      match sub with
      | none => .error credentials_exception
      | some username =>
        match db.users.find? (fun u => u.username == username) with
        | none => .error credentials_exception
        | some u => .ok u

/-- The prefix strip of the cookie path (`app.py` lines 405-406): drop a
leading literal `"Bearer "` if present, else keep the value as is. -/
def cookie_token_str (v : String) : String :=
  if "Bearer ".data.isPrefixOf v.data then String.mk (v.data.drop 7) else v

/-- The body of the `try` block of `get_current_user_from_cookie`
(`app.py` lines 411-417) on the already-stripped token string: a decode
failure (the bare `except`) yields `none`, a missing or empty (falsy)
`sub` leaves `user` at `None`, otherwise the user row is looked up by
username and returned whether found or not. `parse` gives the token the
cookie string denotes. -/
def resolve_cookie_user (parse : String → TokenStr) (secret : String) (db : DB)
    (now : Int) (tokenStr : String) : Option User :=
  match jwt_decode secret now (parse tokenStr) with
  | none => none
  | some (sub, _) =>
    match sub with
    | none => none
    | some username =>
      if username = "" then none
      else db.users.find? (fun u => u.username == username)

/-- `get_current_user_from_cookie` (`app.py` lines 400-417): a missing or
empty (falsy) `access_token` cookie yields `none`; otherwise the value is
stripped of a `"Bearer "` prefix and validated, and every failure yields
`none` rather than an error. -/
def get_current_user_from_cookie (parse : String → TokenStr) (secret : String)
    (db : DB) (now : Int) (cookie : Option String) : Option User :=
  match cookie with
  | none => none
  | some v =>
    if v = "" then none
    else resolve_cookie_user parse secret db now (cookie_token_str v)

/-- `anySuf f` accepts a string exactly when `f` accepts one of its
suffixes. -/
theorem anySuf_eq_true_iff (f : List Char → Bool) (s : List Char) :
    anySuf f s = true ↔ ∃ t, t <:+ s ∧ f t = true := by
  induction s with
  | nil => simp [anySuf, List.suffix_nil]
  | cons x s' ih =>
    simp [anySuf, ih]
    constructor
    · rintro (h | ⟨t, ht, hf⟩)
      · exact ⟨x :: s', List.suffix_refl _, h⟩
      · exact ⟨t, ht.trans (List.suffix_cons x s'), hf⟩
    · rintro ⟨t, ht, hf⟩
      rcases List.suffix_cons_iff.mp ht with h | h
      · subst h; exact Or.inl hf
      · exact Or.inr ⟨t, h, hf⟩

/-- A pattern headed by `%` matches exactly the strings one of whose
suffixes matches the rest of the pattern. -/
theorem likeMatch_pct_iff (ps s : List Char) :
    likeMatch ('%' :: ps) s = true ↔ ∃ t, t <:+ s ∧ likeMatch ps t = true := by
  simp [likeMatch, anySuf_eq_true_iff]

/-- A pattern headed by an ordinary character matches exactly the strings
starting with that character whose tail matches the rest of the pattern. -/
theorem likeMatch_lit_iff (c : Char) (ps s : List Char) (hpc : c ≠ '%') (huc : c ≠ '_') :
    likeMatch (c :: ps) s = true ↔ ∃ s', s = c :: s' ∧ likeMatch ps s' = true := by
  cases s with
  | nil => simp [likeMatch, hpc]
  | cons x s' =>
    constructor
    · intro h
      simp [likeMatch, hpc, huc] at h
      exact ⟨s', by rw [h.1], h.2⟩
    · rintro ⟨t, ht, h2⟩
      injection ht with h1 h3
      subst h1; subst h3
      simp [likeMatch, hpc, huc, h2]

/-- The pattern `%` alone matches every string. -/
theorem likeMatch_pct_nil (s : List Char) : likeMatch ['%'] s = true :=
  (likeMatch_pct_iff [] s).mpr ⟨[], ⟨s, by simp⟩, rfl⟩

/-- A wildcard-free literal followed by `%` matches exactly the strings
the literal is a prefix of. -/
theorem likeMatch_lits_pct_iff (q : List Char) (hq : ∀ c ∈ q, c ≠ '%' ∧ c ≠ '_')
    (s : List Char) : likeMatch (q ++ ['%']) s = true ↔ q <+: s := by
  induction q generalizing s with
  | nil =>
    simp only [List.nil_append]
    rw [likeMatch_pct_iff]
    constructor
    · intro _; exact ⟨s, by simp⟩
    · intro _; exact ⟨[], ⟨s, by simp⟩, rfl⟩
  | cons c q' ih =>
    have hc := hq c (by simp)
    have hq' : ∀ c ∈ q', c ≠ '%' ∧ c ≠ '_' := fun d hd => hq d (by simp [hd])
    rw [List.cons_append, likeMatch_lit_iff c _ s hc.1 hc.2]
    constructor
    · rintro ⟨s', rfl, h⟩
      rcases (ih hq' s').mp h with ⟨t, rfl⟩
      exact ⟨t, rfl⟩
    · rintro ⟨t, rfl⟩
      exact ⟨q' ++ t, rfl, (ih hq' _).mpr ⟨t, rfl⟩⟩

/-- The pattern `%q%` for a wildcard-free `q` matches exactly the strings
containing `q` as a contiguous substring. -/
theorem likeMatch_contains_iff (q s : List Char) (hq : ∀ c ∈ q, c ≠ '%' ∧ c ≠ '_') :
    likeMatch ('%' :: (q ++ ['%'])) s = true ↔ q <:+: s := by
  rw [likeMatch_pct_iff]
  constructor
  · rintro ⟨t, hts, h⟩
    rcases (likeMatch_lits_pct_iff q hq t).mp h with ⟨u, rfl⟩
    rcases hts with ⟨r, rfl⟩
    exact ⟨r, u, by simp⟩
  · rintro ⟨r, u, rfl⟩
    exact ⟨q ++ u, ⟨r, by simp⟩, (likeMatch_lits_pct_iff q hq _).mpr ⟨u, rfl⟩⟩

/-- The pattern `%a%z%` matches exactly the strings with an `a` somewhere
before a `z`. -/
theorem likeMatch_aPz_iff (s : List Char) :
    likeMatch ('%' :: 'a' :: '%' :: 'z' :: ['%']) s = true ↔
      ∃ s1 s2 s3, s = s1 ++ 'a' :: (s2 ++ 'z' :: s3) := by
  rw [likeMatch_pct_iff]
  constructor
  · rintro ⟨t, ⟨r, rfl⟩, h⟩
    rw [likeMatch_lit_iff 'a' _ _ (by decide) (by decide)] at h
    rcases h with ⟨t', rfl, h⟩
    rw [likeMatch_pct_iff] at h
    rcases h with ⟨u, ⟨r2, rfl⟩, h⟩
    rw [likeMatch_lit_iff 'z' _ _ (by decide) (by decide)] at h
    rcases h with ⟨u', rfl, _⟩
    exact ⟨r, r2, u', by simp⟩
  · rintro ⟨s1, s2, s3, rfl⟩
    refine ⟨'a' :: (s2 ++ 'z' :: s3), ⟨s1, rfl⟩, ?_⟩
    rw [likeMatch_lit_iff 'a' _ _ (by decide) (by decide)]
    refine ⟨s2 ++ 'z' :: s3, rfl, ?_⟩
    rw [likeMatch_pct_iff]
    refine ⟨'z' :: s3, ⟨s2, rfl⟩, ?_⟩
    rw [likeMatch_lit_iff 'z' _ _ (by decide) (by decide)]
    exact ⟨s3, rfl, likeMatch_pct_nil s3⟩

/-- ASCII lowercasing maps no character onto the `LIKE` wildcards. -/
theorem toLower_not_wildcard (c : Char) (hpc : c ≠ '%') (huc : c ≠ '_') :
    c.toLower ≠ '%' ∧ c.toLower ≠ '_' := by
  have hdef : c.toLower =
      if c.toNat ≥ 65 ∧ c.toNat ≤ 90 then Char.ofNat (c.toNat + 32) else c := rfl
  by_cases h : c.toNat ≥ 65 ∧ c.toNat ≤ 90
  · rw [hdef, if_pos h]
    obtain ⟨h1, h2⟩ := h
    obtain ⟨n, hn⟩ : ∃ n, c.toNat = n := ⟨_, rfl⟩
    rw [hn] at h1 h2 ⊢
    interval_cases n <;> exact ⟨by decide, by decide⟩
  · rw [hdef, if_neg h]; exact ⟨hpc, huc⟩

/-- The substitution table leaves every non-digit character unchanged. -/
theorem engToBn_of_not_digit (c : Char) (h : ¬('0' ≤ c ∧ c ≤ '9')) : engToBn c = c := by
  unfold engToBn
  split <;> first | rfl | exact absurd (by decide) h

/-- Every output of the substitution table is the input itself or one of
the ten Bangla digit glyphs. -/
theorem engToBn_cases (c : Char) :
    engToBn c = c ∨ engToBn c ∈ ['০', '১', '২', '৩', '৪', '৫', '৬', '৭', '৮', '৯'] := by
  unfold engToBn
  split <;> simp

/-- The digit substitution is idempotent: its outputs contain no
Western-Arabic digit left to translate, so it never maps a Bangla glyph
anywhere (in particular never back to a Western digit). -/
theorem engToBn_idem (c : Char) : engToBn (engToBn c) = engToBn c := by
  rcases engToBn_cases c with h | h
  · rw [h]; exact h
  · simp only [List.mem_cons, List.not_mem_nil, or_false] at h
    rcases h with h | h | h | h | h | h | h | h | h | h <;> rw [h] <;> decide

/-- Mapping a function that fixes every element of a list leaves the list
unchanged. -/
theorem map_eq_self_of_fixed {α : Type} {l : List α} {f : α → α} (h : ∀ c ∈ l, f c = c) :
    l.map f = l := by
  induction l with
  | nil => rfl
  | cons x xs ih => simp [h x (by simp), ih fun c hc => h c (by simp [hc])]

/-- A string without Western-Arabic digits is fixed by the translation. -/
theorem to_bangla_digits_of_no_western (s : String) (h : hasWesternDigit s = false) :
    to_bangla_digits s = s := by
  unfold to_bangla_digits
  have hfix : ∀ c ∈ s.data, engToBn c = c := by
    intro c hc
    apply engToBn_of_not_digit
    rintro ⟨h0, h9⟩
    unfold hasWesternDigit at h
    rw [List.any_eq_false] at h
    have hcontra := h c hc
    simp [h0, h9] at hcontra
  rw [map_eq_self_of_fixed hfix]

/-- C1: `getEventsByDate` returns the exact matches of the month when any
exist; when none exist it returns the matches for the digit-translated day
string, hence the empty list (with the second lookup pointless) when the
day contains no Western-Arabic digit; the translation maps each of the ten
Western digits to its Bangla glyph, passes non-digit characters through
unchanged, and is one-way: it is idempotent, so it never maps a Bangla
glyph (or anything else) back to a Western digit. -/
theorem get_events_by_date_locale_fallback (db : DB) (month_id : Nat) (day : String) :
    (db.events.filter (eventMatchesDay month_id day) ≠ [] →
      get_events_by_date db month_id day = db.events.filter (eventMatchesDay month_id day))
  ∧ (db.events.filter (eventMatchesDay month_id day) = [] →
      get_events_by_date db month_id day =
        db.events.filter (eventMatchesDay month_id (to_bangla_digits day)))
  ∧ (db.events.filter (eventMatchesDay month_id day) = [] → hasWesternDigit day = false →
      get_events_by_date db month_id day = [])
  ∧ (∀ c ∈ day.data, ¬('0' ≤ c ∧ c ≤ '9') → engToBn c = c)
  ∧ to_bangla_digits (to_bangla_digits day) = to_bangla_digits day
  ∧ to_bangla_digits "0123456789" = "০১২৩৪৫৬৭৮৯" := by
  have hB : db.events.filter (eventMatchesDay month_id day) = [] →
      get_events_by_date db month_id day =
        db.events.filter (eventMatchesDay month_id (to_bangla_digits day)) := by
    intro h
    unfold get_events_by_date
    by_cases hbn : to_bangla_digits day = day
    · simp [List.isEmpty_iff, h, hbn]
    · simp [List.isEmpty_iff, h, hbn]
  refine ⟨?_, hB, ?_, ?_, ?_, by decide⟩
  · intro h
    unfold get_events_by_date
    simp [List.isEmpty_iff, h]
  · intro h1 h2
    rw [hB h1, to_bangla_digits_of_no_western day h2]
    exact h1
  · intro c _ hnd
    exact engToBn_of_not_digit c hnd
  · show String.mk ((day.data.map engToBn).map engToBn) = String.mk (day.data.map engToBn)
    rw [List.map_map]
    congr 1
    exact List.map_congr_left fun c _ => engToBn_idem c

/-- Store used by the C1 witness: month 1 stores one event under a Bangla
day string and month 2 stores a Western-digit day and its Bangla twin. -/
def dbLocale : DB :=
  { events := [⟨1, 1, "৫"⟩, ⟨2, 2, "5"⟩, ⟨3, 2, "৫"⟩], nextEventId := 4 }

/-- Witness for C1: looking up the Western string `"5"` in month 1 falls
back to the Bangla row, while in month 2 the exact match wins and the
Bangla twin is not additionally returned. -/
theorem get_events_by_date_locale_fallback_witness :
    get_events_by_date dbLocale 1 "5" = [⟨1, 1, "৫"⟩]
  ∧ get_events_by_date dbLocale 2 "5" = [⟨2, 2, "5"⟩] := by
  constructor
  · rw [(get_events_by_date_locale_fallback dbLocale 1 "5").2.1 (by decide)]
    decide
  · rw [(get_events_by_date_locale_fallback dbLocale 2 "5").1 (by decide)]
    decide

/-- The nested create request used for C2: a month with two events of one
detail each, as in the spec's atomicity test. -/
def mcNested : MonthCreate :=
  { month_bn := "বৈশাখ", month_en := "Baishakh",
    events := [⟨"১", ["detail one"]⟩, ⟨"২", ["detail two"]⟩] }

/-- C2: the nested create is not all-or-nothing. `create_month` commits
after every insert, so when the detail commit of the second event (index
1) fails, the already committed Month row, both Event rows, and the first
event's detail are still visible afterward, contradicting the claim that
no row from the call survives a mid-tree failure. -/
theorem create_month_partial_commit_visible :
    (create_month_fail {} mcNested 1).months = [⟨1, "বৈশাখ", "Baishakh"⟩]
  ∧ (create_month_fail {} mcNested 1).events = [⟨1, 1, "১"⟩, ⟨2, 1, "২"⟩]
  ∧ (create_month_fail {} mcNested 1).details = [⟨1, 1, "detail one"⟩] := by
  decide

/-- C3: after `delete_month` of an existing month, no event row of that
month and no detail row of those events survives, and `delete_event` of
an existing event likewise removes every detail of that event. -/
theorem delete_month_cascade_no_orphans (db : DB) (month_id : Nat)
    (h : ∃ m ∈ db.months, m.id = month_id) :
    (∀ e ∈ (delete_month db month_id).2.events, e.month_id ≠ month_id)
  ∧ (∀ d ∈ (delete_month db month_id).2.details,
      ∀ e ∈ db.events, e.month_id = month_id → d.event_id ≠ e.id)
  ∧ (∀ event_id : Nat, (∃ e ∈ db.events, e.id = event_id) →
      ∀ d ∈ (delete_event db event_id).2.details, d.event_id ≠ event_id) := by
  obtain ⟨m0, hm0, hid⟩ := h
  have hsome : (db.months.find? (fun m => m.id == month_id)).isSome := by
    rw [List.find?_isSome]
    exact ⟨m0, hm0, by simp [hid]⟩
  obtain ⟨mf, hmf⟩ := Option.isSome_iff_exists.mp hsome
  refine ⟨?_, ?_, ?_⟩
  · intro e he
    unfold delete_month at he
    rw [hmf] at he
    simp [List.mem_filter] at he
    exact he.2
  · intro d hd e he hm
    unfold delete_month at hd
    rw [hmf] at hd
    simp [List.mem_filter] at hd
    intro heq
    exact hd.2 e he hm (by rw [heq])
  · rintro eid ⟨e0, he0, hide⟩ d hd
    have hsome2 : (db.events.find? (fun e => e.id == eid)).isSome := by
      rw [List.find?_isSome]
      exact ⟨e0, he0, by simp [hide]⟩
    obtain ⟨ef, hef⟩ := Option.isSome_iff_exists.mp hsome2
    unfold delete_event at hd
    rw [hef] at hd
    simp [List.mem_filter] at hd
    exact hd.2

/-- Store used by the C3 witness: one month with two events of two
details each, the spec's cascade test. -/
def dbCascade : DB :=
  { months := [⟨1, "বৈশাখ", "Baishakh"⟩],
    events := [⟨1, 1, "১"⟩, ⟨2, 1, "২"⟩],
    details := [⟨1, 1, "a"⟩, ⟨2, 1, "b"⟩, ⟨3, 2, "c"⟩, ⟨4, 2, "d"⟩],
    nextMonthId := 2, nextEventId := 3, nextDetailId := 5 }

/-- Witness for C3 at the concrete cascade store. -/
theorem delete_month_cascade_no_orphans_witness :
    (⟨2, 1, "২"⟩ : Event) ∉ (delete_month dbCascade 1).2.events
  ∧ (⟨3, 2, "c"⟩ : EventDetail) ∉ (delete_month dbCascade 1).2.details
  ∧ (⟨3, 2, "c"⟩ : EventDetail) ∉ (delete_event dbCascade 2).2.details := by
  have h := delete_month_cascade_no_orphans dbCascade 1
    ⟨⟨1, "বৈশাখ", "Baishakh"⟩, by decide, rfl⟩
  refine ⟨?_, ?_, ?_⟩
  · intro hmem
    exact h.1 _ hmem rfl
  · intro hmem
    exact h.2.1 _ hmem ⟨2, 1, "২"⟩ (by decide) rfl rfl
  · intro hmem
    exact h.2.2 2 ⟨⟨2, 1, "২"⟩, by decide, rfl⟩ _ hmem rfl

/-- Evaluation of the bearer path on a presented token: the dependency
reduces to the decode result followed by the subject and user lookups. -/
theorem get_current_user_bearer_eval (secret : String) (db : DB) (now : Int) (t : TokenStr) :
    get_current_user secret db now (.bearer t) =
      match jwt_decode secret now t with
      | none => .error credentials_exception
      | some (none, _) => .error credentials_exception
      | some (some uname, _) =>
        match db.users.find? (fun u => u.username == uname) with
        | none => .error credentials_exception
        | some u => .ok u := by
  cases ht : jwt_decode secret now t with
  | none => simp [get_current_user, oauth2_extract, ht]
  | some p =>
    obtain ⟨sub, e⟩ := p
    cases sub with
    | none => simp [get_current_user, oauth2_extract, ht]
    | some un =>
      cases hfind : db.users.find? (fun u => u.username == un) with
      | none => simp [get_current_user, oauth2_extract, ht, hfind]
      | some u => simp [get_current_user, oauth2_extract, ht, hfind]

/-- A token signed with the server secret but whose expiry is not in the
future fails to decode. -/
theorem jwt_decode_expired (secret : String) (now : Int) (sub : Option String)
    (exp : Int) (h : now ≥ exp) :
    jwt_decode secret now (.signed secret sub exp) = none := by
  simp only [jwt_decode]
  rw [if_neg]
  rintro ⟨-, hlt⟩
  omega

/-- A token signed with the server secret and unexpired decodes to its
claims. -/
theorem jwt_decode_valid (secret : String) (now : Int) (sub : Option String)
    (exp : Int) (h : now < exp) :
    jwt_decode secret now (.signed secret sub exp) = some (sub, exp) := by
  simp [jwt_decode, h]

/-- A successful decode comes only from a token signed with the server
secret whose expiry is in the future. -/
theorem jwt_decode_some (secret : String) (now : Int) (t : TokenStr)
    (sub : Option String) (e : Int) (h : jwt_decode secret now t = some (sub, e)) :
    t = .signed secret sub e ∧ now < e := by
  cases t with
  | malformed => simp [jwt_decode] at h
  | signed s0 sub0 e0 =>
    simp only [jwt_decode] at h
    by_cases hcond : s0 = secret ∧ now < e0
    · rw [if_pos hcond] at h
      obtain ⟨rfl, hlt⟩ := hcond
      obtain ⟨rfl, rfl⟩ : sub0 = sub ∧ e0 = e := by
        constructor <;> [exact congrArg Prod.fst (Option.some.inj h);
          exact congrArg Prod.snd (Option.some.inj h)]
      exact ⟨rfl, hlt⟩
    · rw [if_neg hcond] at h
      exact absurd h (by simp)

/-- C4: the bearer authentication path of the admin write endpoints
rejects with status 401 and response header `WWW-Authenticate: Bearer`
when the `Authorization` header is absent or malformed, when the token is
malformed or not signed with the server secret, when it is expired, when
its `sub` claim is missing, and when the resolved username matches no
`User` row; and it returns `.ok u` exactly for a token signed with the
server secret, unexpired, whose subject resolves to the stored user `u`. -/
theorem get_current_user_auth_cases (secret : String) (db : DB) (now : Int)
    (raw uname : String) (sub : Option String) (exp : Int) :
    get_current_user secret db now .missing = .error ⟨401, some "Bearer"⟩
  ∧ get_current_user secret db now (.badScheme raw) = .error ⟨401, some "Bearer"⟩
  ∧ get_current_user secret db now (.bearer .malformed) = .error ⟨401, some "Bearer"⟩
  ∧ (∀ t : TokenStr, jwt_decode secret now t = none →
      get_current_user secret db now (.bearer t) = .error ⟨401, some "Bearer"⟩)
  ∧ (now ≥ exp →
      get_current_user secret db now (.bearer (.signed secret sub exp)) =
        .error ⟨401, some "Bearer"⟩)
  ∧ (now < exp →
      get_current_user secret db now (.bearer (.signed secret none exp)) =
        .error ⟨401, some "Bearer"⟩)
  ∧ (now < exp → db.users.find? (fun u => u.username == uname) = none →
      get_current_user secret db now (.bearer (.signed secret (some uname) exp)) =
        .error ⟨401, some "Bearer"⟩)
  ∧ (∀ t : TokenStr, ∀ u : User, get_current_user secret db now (.bearer t) = .ok u →
      ∃ uname2 exp2, t = .signed secret (some uname2) exp2 ∧ now < exp2 ∧
        db.users.find? (fun x => x.username == uname2) = some u ∧ u ∈ db.users)
  ∧ (now < exp → ∀ u : User, db.users.find? (fun x => x.username == uname) = some u →
      get_current_user secret db now (.bearer (.signed secret (some uname) exp)) = .ok u) := by
  refine ⟨rfl, rfl, rfl, ?_, ?_, ?_, ?_, ?_, ?_⟩
  · intro t ht
    rw [get_current_user_bearer_eval, ht]
    rfl
  · intro hexp
    rw [get_current_user_bearer_eval, jwt_decode_expired secret now sub exp hexp]
    rfl
  · intro hlt
    rw [get_current_user_bearer_eval, jwt_decode_valid secret now none exp hlt]
    rfl
  · intro hlt hfind
    rw [get_current_user_bearer_eval, jwt_decode_valid secret now (some uname) exp hlt]
    show (match db.users.find? (fun u => u.username == uname) with
      | none => Except.error credentials_exception
      | some u => Except.ok u) = Except.error ⟨401, some "Bearer"⟩
    rw [hfind]
    rfl
  · intro t u h
    rw [get_current_user_bearer_eval] at h
    cases ht : jwt_decode secret now t with
    | none => rw [ht] at h; simp [credentials_exception] at h
    | some p =>
      obtain ⟨sub0, e0⟩ := p
      rw [ht] at h
      cases sub0 with
      | none => simp [credentials_exception] at h
      | some un =>
        cases hfind : db.users.find? (fun x => x.username == un) with
        | none => simp [hfind, credentials_exception] at h
        | some u0 =>
          simp [hfind] at h
          subst h
          obtain ⟨hts, hlt⟩ := jwt_decode_some secret now t (some un) e0 ht
          exact ⟨un, e0, hts, hlt, hfind, List.mem_of_find?_eq_some hfind⟩
  · intro hlt u hfind
    rw [get_current_user_bearer_eval, jwt_decode_valid secret now (some uname) exp hlt]
    show (match db.users.find? (fun x => x.username == uname) with
      | none => Except.error credentials_exception
      | some u => Except.ok u) = Except.ok u
    rw [hfind]

/-- Store used by the C4 and C5 witnesses: a single admin user. -/
def dbUsers : DB := { users := [⟨1, "admin", "h"⟩] }

/-- Witness for C4: at the concrete store, a missing header, an expired
token, and an unknown subject are all rejected with 401 +
`WWW-Authenticate: Bearer`, while a fresh token for `admin` succeeds. -/
theorem get_current_user_auth_cases_witness :
    get_current_user "s" dbUsers 100 .missing = .error ⟨401, some "Bearer"⟩
  ∧ get_current_user "s" dbUsers 100 (.bearer (.signed "s" (some "admin") 50)) =
      .error ⟨401, some "Bearer"⟩
  ∧ get_current_user "s" dbUsers 100 (.bearer (.signed "s" (some "ghost") 200)) =
      .error ⟨401, some "Bearer"⟩
  ∧ get_current_user "s" dbUsers 100 (.bearer (.signed "s" (some "admin") 200)) =
      .ok ⟨1, "admin", "h"⟩ := by
  refine ⟨?_, ?_, ?_, ?_⟩
  · exact (get_current_user_auth_cases "s" dbUsers 100 "" "" none 0).1
  · exact (get_current_user_auth_cases "s" dbUsers 100 "" "" (some "admin") 50).2.2.2.2.1
      (by omega)
  · exact (get_current_user_auth_cases "s" dbUsers 100 "" "ghost" none 200).2.2.2.2.2.2.1
      (by omega) (by decide)
  · exact (get_current_user_auth_cases "s" dbUsers 100 "" "admin" none 200).2.2.2.2.2.2.2.2
      (by omega) _ (by decide)

/-- Evaluation of the post-strip cookie resolution: decode, then subject
truthiness check, then user lookup. -/
theorem resolve_cookie_user_eval (parse : String → TokenStr) (secret : String)
    (db : DB) (now : Int) (t : String) :
    resolve_cookie_user parse secret db now t =
      match jwt_decode secret now (parse t) with
      | none => none
      | some (none, _) => none
      | some (some uname, _) =>
        if uname = "" then none else db.users.find? (fun u => u.username == uname) := by
  cases h : jwt_decode secret now (parse t) with
  | none => simp [resolve_cookie_user, h]
  | some p =>
    obtain ⟨sub, e⟩ := p
    cases sub <;> simp [resolve_cookie_user, h]

/-- C5: the cookie path never errors: a missing cookie, a failed token
validation, a missing (or falsy) subject, and a subject matching no
`User` row all resolve to no user (`none`); a cookie value starting with
the literal `"Bearer "` has those seven characters stripped before the
remainder is validated; and a valid cookie for a stored user resolves to
that user. -/
theorem cookie_user_lenient_resolution (parse : String → TokenStr) (secret : String)
    (db : DB) (now : Int) (v uname : String) (exp : Int) :
    get_current_user_from_cookie parse secret db now none = none
  ∧ ("Bearer ".data.isPrefixOf v.data = true →
      get_current_user_from_cookie parse secret db now (some v) =
        resolve_cookie_user parse secret db now (String.mk (v.data.drop 7)))
  ∧ (jwt_decode secret now (parse (cookie_token_str v)) = none →
      get_current_user_from_cookie parse secret db now (some v) = none)
  ∧ (jwt_decode secret now (parse (cookie_token_str v)) = some (none, exp) →
      get_current_user_from_cookie parse secret db now (some v) = none)
  ∧ (jwt_decode secret now (parse (cookie_token_str v)) = some (some uname, exp) →
      db.users.find? (fun u => u.username == uname) = none →
      get_current_user_from_cookie parse secret db now (some v) = none)
  ∧ (jwt_decode secret now (parse (cookie_token_str v)) = some (some uname, exp) →
      uname ≠ "" → v ≠ "" →
      ∀ u : User, db.users.find? (fun x => x.username == uname) = some u →
      get_current_user_from_cookie parse secret db now (some v) = some u) := by
  have hval : ∀ w : String, w ≠ "" →
      get_current_user_from_cookie parse secret db now (some w) =
        resolve_cookie_user parse secret db now (cookie_token_str w) := by
    intro w hw
    simp [get_current_user_from_cookie, hw]
  refine ⟨rfl, ?_, ?_, ?_, ?_, ?_⟩
  · intro hsw
    have hv : v ≠ "" := by
      intro h
      rw [h] at hsw
      exact absurd hsw (by decide)
    rw [hval v hv]
    unfold cookie_token_str
    rw [if_pos hsw]
  · intro hdec
    by_cases hv : v = ""
    · simp [get_current_user_from_cookie, hv]
    · rw [hval v hv, resolve_cookie_user_eval, hdec]
  · intro hdec
    by_cases hv : v = ""
    · simp [get_current_user_from_cookie, hv]
    · rw [hval v hv, resolve_cookie_user_eval, hdec]
  · intro hdec hfind
    by_cases hv : v = ""
    · simp [get_current_user_from_cookie, hv]
    · rw [hval v hv, resolve_cookie_user_eval, hdec]
      show (if uname = "" then none
        else db.users.find? (fun u => u.username == uname)) = none
      by_cases hu : uname = ""
      · rw [if_pos hu]
      · rw [if_neg hu]
        exact hfind
  · intro hdec hu hv u hfind
    rw [hval v hv, resolve_cookie_user_eval, hdec]
    show (if uname = "" then none
      else db.users.find? (fun u => u.username == uname)) = some u
    rw [if_neg hu]
    exact hfind

/-- The token-string environment of the C5 witness: the string `"tok"`
denotes a token for `admin` signed with the server secret, every other
string is malformed. -/
def parseTok : String → TokenStr := fun s =>
  if s = "tok" then .signed "s" (some "admin") 200 else .malformed

/-- Witness for C5: the cookie `"Bearer tok"` is stripped and resolves to
the admin user, while an unparsable cookie resolves to no user. -/
theorem cookie_user_lenient_resolution_witness :
    get_current_user_from_cookie parseTok "s" dbUsers 100 (some "Bearer tok") =
      some ⟨1, "admin", "h"⟩
  ∧ get_current_user_from_cookie parseTok "s" dbUsers 100 (some "garbage") = none := by
  constructor
  · rw [(cookie_user_lenient_resolution parseTok "s" dbUsers 100 "Bearer tok"
      "admin" 200).2.1 (by decide)]
    decide
  · exact (cookie_user_lenient_resolution parseTok "s" dbUsers 100 "garbage"
      "" 0).2.2.1 (by decide)

/-- C6: the `/token` endpoint issues tokens expiring 30 minutes
(`ACCESS_TOKEN_EXPIRE_MINUTES`) after issue time, the dashboard login
issues tokens with the 15-minute default, and a token issued with ttl `t`
validates exactly at times strictly before issue time plus `t` (for the
dashboard path, issue time plus 15 minutes). -/
theorem token_ttl_and_expiry (secret sub : String) (now t now2 : Int) :
    api_token secret sub now = .signed secret (some sub) (now + 30 * 60)
  ∧ dashboard_token secret sub now = .signed secret (some sub) (now + 15 * 60)
  ∧ (jwt_decode secret now2 (create_access_token secret sub now (some t)) ≠ none ↔
      now2 < now + t)
  ∧ (jwt_decode secret now2 (dashboard_token secret sub now) ≠ none ↔
      now2 < now + 15 * 60) := by
  refine ⟨?_, rfl, ?_, ?_⟩
  · show TokenStr.signed secret (some sub)
      (now + Option.getD (some ((ACCESS_TOKEN_EXPIRE_MINUTES : Int) * 60)) (15 * 60)) =
      TokenStr.signed secret (some sub) (now + 30 * 60)
    norm_num [ACCESS_TOKEN_EXPIRE_MINUTES]
  · simp only [jwt_decode, create_access_token, Option.getD_some]
    split_ifs with h
    · constructor
      · intro _
        exact h.2
      · intro _
        simp
    · constructor
      · intro hc
        exact absurd rfl hc
      · intro hlt
        exact absurd ⟨trivial, hlt⟩ h
  · simp only [jwt_decode, dashboard_token, create_access_token, Option.getD_none]
    split_ifs with h
    · constructor
      · intro _
        exact h.2
      · intro _
        simp
    · constructor
      · intro hc
        exact absurd rfl hc
      · intro hlt
        exact absurd ⟨trivial, hlt⟩ h

/-- Store used by the C7 counterexample: a single detail `"abz"`. -/
def dbWild : DB := { details := [⟨1, 1, "abz"⟩], nextDetailId := 2 }

/-- Counterexample to C7 as stated: the query `"a%z"` (length 3, accepted
by the request layer) returns the detail row `"abz"` even though `"abz"`
does not contain `"a%z"` as a (case-insensitive) substring — the `%` in
the query acted as a wildcard, so the result is not exactly the set of
substring matches. -/
theorem search_details_wildcard_leak :
    search_details dbWild "a%z" = [⟨1, 1, "abz"⟩]
  ∧ ¬ (strLower "a%z").data <:+: (strLower "abz").data := by
  constructor
  · decide
  · decide

/-- C7 (amended): for a query free of the SQL `LIKE` wildcards `%` and
`_`, `search_details` returns exactly the detail rows — across all events
and months — whose text contains the query as a case-insensitive
substring; and the request layer rejects queries shorter than 3
characters before `search_details` is invoked. -/
theorem search_details_ci_substring (db : DB) (q : String)
    (hq : ∀ c ∈ q.data, c ≠ '%' ∧ c ≠ '_') :
    (∀ d : EventDetail, d ∈ search_details db q ↔
        d ∈ db.details ∧ (strLower q).data <:+: (strLower d.detail).data)
  ∧ (q.length < 3 → search_events_route db q = none)
  ∧ (3 ≤ q.length → search_events_route db q = some (search_details db q)) := by
  have hq' : ∀ c ∈ (strLower q).data, c ≠ '%' ∧ c ≠ '_' := by
    intro c hc
    simp [strLower] at hc
    obtain ⟨c0, hc0, rfl⟩ := hc
    exact toLower_not_wildcard c0 (hq c0 hc0).1 (hq c0 hc0).2
  have hpat : (strLower ("%" ++ q ++ "%")).data = '%' :: ((strLower q).data ++ ['%']) := by
    simp [strLower, String.data_append]
  refine ⟨?_, ?_, ?_⟩
  · intro d
    unfold search_details
    simp only [List.mem_filter]
    rw [hpat, likeMatch_contains_iff _ _ hq']
  · intro h
    simp [search_events_route, h]
  · intro h
    unfold search_events_route
    rw [if_neg (by omega)]

/-- Store used by the C7 witness: a single detail `"XYZabcDEF"`. -/
def dbSearch : DB := { details := [⟨1, 1, "XYZabcDEF"⟩], nextDetailId := 2 }

/-- Witness for the amended C7: the query `"abc"` matches `"XYZabcDEF"`
case-insensitively, and the two-character query `"ab"` is rejected at the
request layer. -/
theorem search_details_ci_substring_witness :
    (⟨1, 1, "XYZabcDEF"⟩ : EventDetail) ∈ search_details dbSearch "abc"
  ∧ search_events_route dbSearch "ab" = none := by
  constructor
  · exact ((search_details_ci_substring dbSearch "abc" (by decide)).1
      ⟨1, 1, "XYZabcDEF"⟩).mpr (by decide)
  · exact (search_details_ci_substring dbSearch "ab" (by decide)).2.1 (by decide)

/-- C10: because `search_details` splices the raw query between two `%`
signs with no escaping, a `%` inside the query acts as a `LIKE` wildcard:
the query `"a%z"` returns exactly the detail rows whose (lowercased) text
has an `a` somewhere before a `z`, not only rows containing the literal
substring `"a%z"`. -/
theorem search_details_percent_wildcard (db : DB) (d : EventDetail) :
    d ∈ search_details db "a%z" ↔
      d ∈ db.details ∧
        ∃ s1 s2 s3, (strLower d.detail).data = s1 ++ 'a' :: (s2 ++ 'z' :: s3) := by
  have hpat : (strLower ("%" ++ "a%z" ++ "%")).data = '%' :: 'a' :: '%' :: 'z' :: ['%'] := by
    decide
  unfold search_details
  simp only [List.mem_filter]
  rw [hpat, likeMatch_aPz_iff]

/-- When the month ids of a list are distinct, overwriting the first row
with a given id is the same as overwriting every row with that id. -/
theorem setMonthNames_eq_map (l : List Month) (mid : Nat) (bn en : String)
    (h : (l.map Month.id).Nodup) :
    setMonthNames l mid bn en =
      l.map (fun m => if m.id = mid then { m with month_bn := bn, month_en := en } else m) := by
  induction l with
  | nil => rfl
  | cons mo rest ih =>
    rw [List.map_cons, List.nodup_cons] at h
    simp only [setMonthNames, List.map_cons]
    by_cases hmo : mo.id = mid
    · rw [if_pos (by simp [hmo]), if_pos hmo]
      congr 1
      symm
      apply map_eq_self_of_fixed
      intro m hm
      rw [if_neg]
      intro heq
      exact h.1 (by rw [hmo, ← heq]; exact List.mem_map_of_mem Month.id hm)
    · rw [if_neg (by simp [hmo]), if_neg hmo]
      rw [ih h.2]

/-- C9: `update_month` never touches the users, events, or details
tables; when no month has the given id it returns `none` and leaves the
store exactly as it was; and when the months' ids are distinct it
overwrites exactly the two name fields of the month with that id, leaving
every other month row unchanged. -/
theorem update_month_frame (db : DB) (month_id : Nat) (bn en : String) :
    ((update_month db month_id bn en).2.users = db.users
      ∧ (update_month db month_id bn en).2.events = db.events
      ∧ (update_month db month_id bn en).2.details = db.details)
  ∧ ((∀ m ∈ db.months, m.id ≠ month_id) → update_month db month_id bn en = (none, db))
  ∧ ((db.months.map Month.id).Nodup →
      (update_month db month_id bn en).2.months =
        db.months.map (fun m => if m.id = month_id then
          { m with month_bn := bn, month_en := en } else m)) := by
  refine ⟨?_, ?_, ?_⟩
  · unfold update_month
    cases h : db.months.find? (fun m => m.id == month_id) <;> simp
  · intro hno
    unfold update_month
    have hfind : db.months.find? (fun m => m.id == month_id) = none := by
      rw [List.find?_eq_none]
      intro m hm
      simp [hno m hm]
    rw [hfind]
  · intro hnd
    unfold update_month
    cases h : db.months.find? (fun m => m.id == month_id) with
    | none =>
      simp only
      symm
      apply map_eq_self_of_fixed
      intro m hm
      rw [if_neg]
      have := List.find?_eq_none.mp h m hm
      simpa using this
    | some m0 =>
      simp only
      exact setMonthNames_eq_map db.months month_id bn en hnd

/-- Store used by the C9 witness: two months and one event. -/
def dbFrame : DB :=
  { months := [⟨1, "পুরনো", "Old"⟩, ⟨2, "c", "d"⟩],
    events := [⟨1, 1, "১"⟩], nextMonthId := 3, nextEventId := 2 }

/-- Witness for C9: updating month 1 rewrites only its two name fields,
leaves the other month and the events table unchanged, and updating a
missing id changes nothing and returns `none`. -/
theorem update_month_frame_witness :
    (update_month dbFrame 1 "নতুন" "New").2.months = [⟨1, "নতুন", "New"⟩, ⟨2, "c", "d"⟩]
  ∧ (update_month dbFrame 1 "নতুন" "New").2.events = dbFrame.events
  ∧ update_month dbFrame 7 "x" "y" = (none, dbFrame) := by
  refine ⟨?_, ?_, ?_⟩
  · rw [(update_month_frame dbFrame 1 "নতুন" "New").2.2 (by decide)]
    decide
  · exact (update_month_frame dbFrame 1 "নতুন" "New").1.2.1
  · exact (update_month_frame dbFrame 7 "x" "y").2.1 (by decide)
